import Mathlib

/-!
Verification of the conversation/request pipeline of ProjectAIli (main.go).

The Go program is shallowly embedded: pure fragments become Lean functions,
the mutexed `Conversation` state becomes an explicit structure threaded
through the operations, external effects (file reads, HTTP transport, the
rate-limiter/cancellation select, wall-clock timestamps) become explicit
oracle parameters.  Go `int` token counters are modelled as `Int`
(word counts stay far below 2^63, so wrap-around is irrelevant).
-/

namespace ProjectAIli

/-! ### Token estimation (Go `len(strings.Fields(content))`)

`strings.Fields` splits around runs of characters satisfying
`unicode.IsSpace`, i.e. the Unicode White_Space property. -/

def goIsSpace (c : Char) : Bool :=
  c = ' ' || c = '\t' || c = '\n' || c = '\x0b' || c = '\x0c' || c = '\r' ||
  c.toNat = 0x85 || c.toNat = 0xA0 || c.toNat = 0x1680 ||
  (0x2000 ≤ c.toNat && c.toNat ≤ 0x200A) ||
  c.toNat = 0x2028 || c.toNat = 0x2029 || c.toNat = 0x202F ||
  c.toNat = 0x205F || c.toNat = 0x3000

/-- Count maximal runs of non-space characters; the `inField` flag records
whether the previous character belonged to a field. -/
def countFieldsAux : List Char → Bool → Nat
  | [], _ => 0
  | c :: cs, inField =>
    if goIsSpace c then countFieldsAux cs false
    else (if inField then 0 else 1) + countFieldsAux cs true

/-- Go `len(strings.Fields(s))`: the whitespace-delimited word count used as
the token estimate throughout main.go. -/
def estimateTokens (s : String) : Nat :=
  countFieldsAux s.data false

/-- Go `strings.HasPrefix(s, p)`, on the underlying character lists. -/
def hasPrefixChars : List Char → List Char → Bool
  | [], _ => true
  | _ :: _, [] => false
  | p :: ps, c :: cs => (p == c) && hasPrefixChars ps cs

def goHasPrefix (s p : String) : Bool :=
  hasPrefixChars p.data s.data

/-! ### Data model -/

/-- Go `Message`.  `Timestamp time.Time` is modelled as a `Nat`; it is
write-only in main.go (set from `time.Now()`, never read, not persisted). -/
structure Message where
  role : String
  content : String
  timestamp : Nat
deriving DecidableEq, Repr

/-- Go `Conversation` without the lock: `History []Message` plus the running
`tokenCount int`.  All mutations are serialized by `mu` in the source, so the
lock itself has no observable content in a sequential model. -/
structure Conversation where
  History : List Message
  tokenCount : Int
deriving DecidableEq, Repr

/-- Go `const maxConversationTokens = 4000` (the storage budget). -/
def maxConversationTokens : Int := 4000

/-- Go `countTokens`: sums the word-count estimate over a message slice. -/
def countTokens : List Message → Nat
  | [] => 0
  | m :: rest => estimateTokens m.content + countTokens rest

/-! ### ConversationStore operations -/

/-- Go `(*Conversation).truncateHistory`, operating on the history and the
running count:

    for c.tokenCount > maxConversationTokens && len(c.History) > 1 {
        removedTokens := len(strings.Fields(c.History[1].Content))
        c.tokenCount -= removedTokens
        c.History = c.History[2:]
    }

Note the slice `c.History[2:]` removes the entries at index 0 and 1 while
only `History[1]`'s estimate is subtracted. -/
def truncateHistory : List Message → Int → List Message × Int
  | m0 :: m1 :: rest, tc =>
    if maxConversationTokens < tc then
      truncateHistory rest (tc - (estimateTokens m1.content : Int))
    else (m0 :: m1 :: rest, tc)
  | hist, tc => (hist, tc)

/-- Go `(*Conversation).addMessage`: add the content's estimate to the count,
append the message, then run the truncation pass.  `ts` stands for the
`time.Now()` call. -/
def addMessage (c : Conversation) (role content : String) (ts : Nat) : Conversation :=
  let tokens : Int := (estimateTokens content : Int)
  let p := truncateHistory (c.History ++ [⟨role, content, ts⟩]) (c.tokenCount + tokens)
  ⟨p.1, p.2⟩

/-- Go `loadConversation` after the file read and JSON decode succeeded
(file I/O and the JSON decoding of the persisted array are external): build
the conversation and recompute `tokenCount` from the loaded contents. -/
def loadConversation (history : List Message) : Conversation :=
  ⟨history, (countTokens history : Int)⟩

/-- Go `(*Conversation).replaceWith`: wholesale state replacement. -/
def replaceWith (_c other : Conversation) : Conversation :=
  ⟨other.History, other.tokenCount⟩

/-- Go `newConversation` given the system-prompt file contents: a single
system message whose estimate seeds `tokenCount`. -/
def newConversation (systemPrompt : String) (ts : Nat) : Conversation :=
  ⟨[⟨"system", systemPrompt, ts⟩], (estimateTokens systemPrompt : Int)⟩

/-! ### Outbound truncation (Go `truncateConversation`)

    for i := len(history) - 1; i >= 0; i-- {
        message := history[i]
        tokens := len(strings.Fields(message.Content))
        if totalTokens+tokens > maxTokens { break }
        totalTokens += tokens
        truncated = append([]Message{message}, truncated...)
    }

The backward walk over `history` is the forward walk over `history.reverse`;
prepending to `truncated` is consing onto the accumulator. -/

def truncateConversationAux (maxTok : Nat) : List Message → Nat → List Message → List Message
  | [], _, acc => acc
  | m :: rest, total, acc =>
    let tokens := estimateTokens m.content
    if maxTok < total + tokens then acc
    else truncateConversationAux maxTok rest (total + tokens) (m :: acc)

/-- Go `truncateConversation(history, maxTokens)`. -/
def truncateConversation (history : List Message) (maxTok : Nat) : List Message :=
  truncateConversationAux maxTok history.reverse 0 []

/-- The greedy prefix (of the reversed history) that `truncateConversationAux`
takes: stop at the first element whose inclusion would push the running total
over the ceiling. -/
def greedyTake (maxTok : Nat) : List Message → Nat → List Message
  | [], _ => []
  | m :: rest, total =>
    let tokens := estimateTokens m.content
    if maxTok < total + tokens then []
    else m :: greedyTake maxTok rest (total + tokens)

/-! ### Request dispatcher (Go `getAIResponseWithRetry`)

External effects are oracles:
* `lim attempt = true` models the `select` at the top of iteration `attempt`
  choosing `<-ctx.Done()` (the context fired while waiting on the
  rate-limiter tick); `false` models receiving the tick.
* `tr attempt` is the outcome of the `getAIResponse` call of iteration
  `attempt` (HTTP transport plus stream decoding), as an `Except`.

`time.Sleep` of the backoff-plus-jitter delay and the `backoff` update only
affect timing, not the returned values, and are omitted.  The `calls` field
counts how many times `getAIResponse` was invoked. -/

/-- Go `const maxRetries = 3`. -/
def maxRetries : Nat := 3

inductive RetryError where
  /-- Go `return "", ctx.Err()` out of the rate-limiter `select`. -/
  | ctxCancelled
  /-- Go `fmt.Errorf("failed after %d attempts, last error: %w", maxRetries, err)`;
  carries the attempt count and wraps the last underlying error ( `none`
  for Go's nil `err`, unreachable while `maxRetries > 0`). -/
  | exhausted (attempts : Nat) (lastErr : Option String)
deriving DecidableEq, Repr

structure RetryResult where
  text : String
  err : Option RetryError
  calls : Nat
deriving DecidableEq, Repr

def retryAux (lim : Nat → Bool) (tr : Nat → Except String String) :
    Nat → Nat → Option String → Nat → RetryResult
  | _, 0, lastErr, calls => ⟨"", some (.exhausted maxRetries lastErr), calls⟩
  | attempt, remaining + 1, _lastErr, calls =>
    if lim attempt then ⟨"", some .ctxCancelled, calls⟩
    else
      match tr attempt with
      | Except.ok s => ⟨s, none, calls + 1⟩
      | Except.error e => retryAux lim tr (attempt + 1) remaining (some e) (calls + 1)

/-- Go `getAIResponseWithRetry`: up to `maxRetries` iterations, each first
waiting on the rate limiter under the shared context, then calling
`getAIResponse`. -/
def getAIResponseWithRetry (lim : Nat → Bool) (tr : Nat → Except String String) : RetryResult :=
  retryAux lim tr 0 maxRetries none 0

/-! ### JSON values and decoding

Model of the slice of `encoding/json` that `processStreamResponse` uses:
`json.Unmarshal(data, &map[string]interface{})`.  Arrays decode to ordered
lists, objects to ordered field lists (`jlookup` keeps the last binding, as
map assignment overwrites).  Number literals are captured as raw lexemes and
checked only loosely (no program path ever reads a number).  `\u` escapes
outside the BMP/surrogate handling are approximated by `Char.ofNat`. -/

inductive JValue where
  | jnull
  | jbool (b : Bool)
  | jnum (lexeme : String)
  | jstr (s : String)
  | jarr (elems : List JValue)
  | jobj (fields : List (String × JValue))

/-- JSON insignificant whitespace. -/
def jsonWs (c : Char) : Bool :=
  c = ' ' || c = '\t' || c = '\n' || c = '\r'

/-- Value of one hexadecimal digit (code points compared numerically). -/
def hexVal (c : Char) : Option Nat :=
  let n := c.toNat
  if 48 ≤ n && n ≤ 57 then some (n - 48)
  else if 97 ≤ n && n ≤ 102 then some (n - 87)
  else if 65 ≤ n && n ≤ 70 then some (n - 55)
  else none

/-- Parse the body of a JSON string (the opening quote already consumed),
accumulating decoded characters in reverse. -/
def parseStringBody : List Char → List Char → Option (String × List Char)
  | [], _ => none
  | '"' :: rest, acc => some (String.mk acc.reverse, rest)
  | '\\' :: 'u' :: h1 :: h2 :: h3 :: h4 :: rest, acc =>
    match hexVal h1, hexVal h2, hexVal h3, hexVal h4 with
    | some a, some b, some c, some d =>
      parseStringBody rest (Char.ofNat (4096 * a + 256 * b + 16 * c + d) :: acc)
    | _, _, _, _ => none
  | '\\' :: e :: rest, acc =>
    if e = '"' then parseStringBody rest ('"' :: acc)
    else if e = '\\' then parseStringBody rest ('\\' :: acc)
    else if e = '/' then parseStringBody rest ('/' :: acc)
    else if e = 'b' then parseStringBody rest ('\x08' :: acc)
    else if e = 'f' then parseStringBody rest ('\x0c' :: acc)
    else if e = 'n' then parseStringBody rest ('\n' :: acc)
    else if e = 'r' then parseStringBody rest ('\r' :: acc)
    else if e = 't' then parseStringBody rest ('\t' :: acc)
    else none
  | c :: rest, acc => parseStringBody rest (c :: acc)

/-- Characters that may occur in a JSON number literal. -/
def numChar (c : Char) : Bool :=
  c.isDigit || c = '-' || c = '+' || c = '.' || c = 'e' || c = 'E'

def parseNumberLexeme (cs : List Char) : Option (String × List Char) :=
  match cs.takeWhile numChar with
  | [] => none
  | lex => some (String.mk lex, cs.dropWhile numChar)

mutual

/-- Parse one JSON value.  `fuel` decreases on every recursive call; callers
supply `input.length + 1`, which is ample since every consumed unit of fuel
consumes at least one input character. -/
def parseValue : Nat → List Char → Option (JValue × List Char)
  | 0, _ => none
  | fuel + 1, cs =>
    match cs.dropWhile jsonWs with
    | [] => none
    | 'n' :: 'u' :: 'l' :: 'l' :: rest => some (.jnull, rest)
    | 't' :: 'r' :: 'u' :: 'e' :: rest => some (.jbool true, rest)
    | 'f' :: 'a' :: 'l' :: 's' :: 'e' :: rest => some (.jbool false, rest)
    | '"' :: rest =>
      match parseStringBody rest [] with
      | some (s, rest2) => some (.jstr s, rest2)
      | none => none
    | '[' :: rest =>
      match rest.dropWhile jsonWs with
      | ']' :: rest2 => some (.jarr [], rest2)
      | _ => parseElems fuel rest []
    | '\x7b' :: rest =>
      match rest.dropWhile jsonWs with
      | '\x7d' :: rest2 => some (.jobj [], rest2)
      | _ => parseFields fuel rest []
    | c :: rest =>
      if c.isDigit || c = '-' then
        match parseNumberLexeme (c :: rest) with
        | some (lex, rest2) => some (.jnum lex, rest2)
        | none => none
      else none

/-- Parse the comma-separated elements of a non-empty array. -/
def parseElems : Nat → List Char → List JValue → Option (JValue × List Char)
  | 0, _, _ => none
  | fuel + 1, cs, acc =>
    match parseValue fuel cs with
    | none => none
    | some (v, rest) =>
      match rest.dropWhile jsonWs with
      | ',' :: rest2 => parseElems fuel rest2 (v :: acc)
      | ']' :: rest2 => some (.jarr (v :: acc).reverse, rest2)
      | _ => none

/-- Parse the comma-separated key/value fields of a non-empty object. -/
def parseFields : Nat → List Char → List (String × JValue) → Option (JValue × List Char)
  | 0, _, _ => none
  | fuel + 1, cs, acc =>
    match cs.dropWhile jsonWs with
    | '"' :: rest =>
      match parseStringBody rest [] with
      | none => none
      | some (k, rest2) =>
        match rest2.dropWhile jsonWs with
        | ':' :: rest3 =>
          match parseValue fuel rest3 with
          | none => none
          | some (v, rest4) =>
            match rest4.dropWhile jsonWs with
            | ',' :: rest5 => parseFields fuel rest5 ((k, v) :: acc)
            | '\x7d' :: rest5 => some (.jobj ((k, v) :: acc).reverse, rest5)
            | _ => none
        | _ => none
    | _ => none

end

/-- Go `json.Unmarshal([]byte(data), &jsonResponse)` for
`jsonResponse : map[string]interface{}`: the whole input must be exactly one
JSON value (modulo trailing whitespace) and that value must be an object;
otherwise `Unmarshal` reports an error (`none` here). -/
def unmarshalObject (s : String) : Option (List (String × JValue)) :=
  match parseValue (s.data.length + 1) s.data with
  | some (JValue.jobj fields, rest) =>
    if rest.dropWhile jsonWs = [] then some fields else none
  | _ => none

/-- Lookup in a decoded object; a later duplicate key overwrites an earlier
one, as in a Go map built by `Unmarshal`. -/
def jlookup (fields : List (String × JValue)) (k : String) : Option JValue :=
  fields.foldl (fun acc kv => if kv.1 = k then some kv.2 else acc) none

/-- Go `extractContent`: the `choices[0].delta.content` path with a type
assertion at each step, yielding `""` whenever a step fails. -/
def extractContent (jsonResponse : List (String × JValue)) : String :=
  match jlookup jsonResponse "choices" with
  | some (JValue.jarr (choice0 :: _)) =>
    match choice0 with
    | JValue.jobj choice =>
      match jlookup choice "delta" with
      | some (JValue.jobj delta) =>
        match jlookup delta "content" with
        | some (JValue.jstr content) => content
        | _ => ""
      | _ => ""
    | _ => ""
  | _ => ""

/-! ### Stream decoding (Go `processStreamResponse`)

The response body is modelled as the list of lines produced by
`bufio.Scanner`; a pure input has no read error, so the `scanner.Err()`
check after the loop never fires in the model.  The recorded `lastError`
is represented by the offending data payload. -/

/-- Go `strings.TrimSpace` (trims `unicode.IsSpace` on both ends). -/
def trimSpace (s : String) : String :=
  String.mk (((s.data.dropWhile goIsSpace).reverse.dropWhile goIsSpace).reverse)

def dataMarker : String := "data: "

def doneSentinel : String := "[DONE]"

/-- What one iteration of the Go scan loop does with a line. -/
inductive LineKind where
  /-- Not a `data: ` line (`continue`), or a well-formed record contributing
  an empty content fragment (nothing written to the buffer). -/
  | skip
  /-- The terminal sentinel: the loop `break`s. -/
  | sentinel
  /-- `json.Unmarshal` failed: record the payload as the last error. -/
  | malformed (payload : String)
  /-- A well-formed record with a non-empty content fragment. -/
  | fragment (content : String)

/-- The per-line branch structure of the Go scan loop body:
`strings.HasPrefix(line, "data: ")`, `strings.TrimPrefix`, the `[DONE]`
comparison, `json.Unmarshal`, and the `extractContent` extraction. -/
def classifyLine (line : String) : LineKind :=
  if goHasPrefix line dataMarker then
    let data := String.mk (line.data.drop dataMarker.length)
    if data = doneSentinel then .sentinel
    else
      match unmarshalObject data with
      | none => .malformed data
      | some obj =>
        let content := extractContent obj
        if content = "" then .skip
        else .fragment content
  else .skip

/-- The scan loop of `processStreamResponse`: threads the fragment buffer and
the last malformed-record error; returns at the end of input or at the
`[DONE]` sentinel. -/
def processStreamLoop : List String → String → Option String → String × Option String
  | [], buf, lastErr => (buf, lastErr)
  | line :: rest, buf, lastErr =>
    match classifyLine line with
    | .skip => processStreamLoop rest buf lastErr
    | .sentinel => (buf, lastErr)
    | .malformed payload => processStreamLoop rest buf (some payload)
    | .fragment content => processStreamLoop rest (buf ++ content) lastErr

/-- Go `processStreamResponse`: after the loop, a recorded decode error is
escalated — even when the loop was ended by the `[DONE]` sentinel — and
otherwise the trimmed concatenation of the fragments is returned. -/
def processStreamResponse (lines : List String) : Except String String :=
  match processStreamLoop lines "" none with
  | (buf, none) => Except.ok (trimSpace buf)
  | (_, some e) => Except.error ("error processing stream: " ++ e)

/-- Specification-side view: the content fragments a stream contributes
before the sentinel, in arrival order. -/
def streamFragments : List String → List String
  | [] => []
  | line :: rest =>
    match classifyLine line with
    | .skip => streamFragments rest
    | .sentinel => []
    | .malformed _ => streamFragments rest
    | .fragment content => content :: streamFragments rest

/-- Specification-side view: the payload of the last malformed data line
before the sentinel, if any. -/
def streamLastError : List String → Option String
  | [] => none
  | line :: rest =>
    match classifyLine line with
    | .skip => streamLastError rest
    | .sentinel => none
    | .malformed payload =>
      match streamLastError rest with
      | some e => some e
      | none => some payload
    | .fragment _ => streamLastError rest

def joinAll : List String → String
  | [] => ""
  | s :: rest => s ++ joinAll rest

/-! ### Chat input handling (Go `getUserInput`, `processChatInput`)

`scanner.Scan()` returning `false` (end of input or read error) is modelled
by a `none` scan result.  The outcome records the resulting conversation
state, whether the `exit` branch fired (Go returns `io.EOF` there, the only
non-nil return of `processChatInput`), and whether the chat-turn branch
invoked `getAIResponseWithRetry`. -/

/-- Go `const exitCommand = "exit"`. -/
def exitCommand : String := "exit"

/-- Go `getUserInput`: on a failed `scanner.Scan()` return the exit command,
otherwise the trimmed line. -/
def getUserInput : Option String → String
  | none => exitCommand
  | some t => trimSpace t

/-- ASCII case folding, modelling `strings.EqualFold` on the inputs the
program compares (the only comparand is the ASCII literal `"exit"`). -/
def toLowerAscii (c : Char) : Char :=
  if 'A' ≤ c && c ≤ 'Z' then Char.ofNat (c.toNat + 32) else c

def eqFoldChars : List Char → List Char → Bool
  | [], [] => true
  | a :: as, b :: bs => (toLowerAscii a == toLowerAscii b) && eqFoldChars as bs
  | _, _ => false

def eqFold (s t : String) : Bool :=
  eqFoldChars s.data t.data

/-- The branch taken by Go `processChatInput` on a (already trimmed) user
input: empty input, case-insensitive `exit`, `strings.HasPrefix`-matched
`/save` and `/load` commands, else a chat turn — in that source order. -/
inductive InputAction where
  | emptyInput
  | exitSession
  | saveCmd
  | loadCmd
  | chatTurn (s : String)
deriving DecidableEq, Repr

def classifyInput (userInput : String) : InputAction :=
  if userInput = "" then .emptyInput
  else if eqFold userInput exitCommand then .exitSession
  else if goHasPrefix userInput "/save" then .saveCmd
  else if goHasPrefix userInput "/load" then .loadCmd
  else .chatTurn userInput

/-- Go `strings.SplitN(userInput, " ", 2)` viewed through
`handleLoadCommand`: `none` when there is no space (one part, usage message
printed), otherwise the part after the first space. -/
def splitFirstSpace : List Char → Option (List Char)
  | [] => none
  | c :: rest =>
    if c = ' ' then some rest
    else splitFirstSpace rest

structure StepOutcome where
  conv : Conversation
  sessionEnd : Bool
  dispatched : Bool
deriving DecidableEq, Repr

/-- One iteration body of the chat loop on a trimmed user input.
`dispatchRes` is the outcome `getAIResponseWithRetry` would produce this
turn; `loadRes` is the outcome of `loadConversation` per file name.  `/save`
only writes a file (state unchanged); a failed load or a usage error leaves
the state unchanged; a chat turn appends the user message, and appends the
assistant message only on dispatcher success (on failure the error is
printed and the user message stays). -/
def processInputCore (c : Conversation) (userInput : String)
    (dispatchRes : Except String String)
    (loadRes : String → Except String (List Message)) (ts : Nat) : StepOutcome :=
  match classifyInput userInput with
  | .emptyInput => ⟨c, false, false⟩
  | .exitSession => ⟨c, true, false⟩
  | .saveCmd => ⟨c, false, false⟩
  | .loadCmd =>
    match splitFirstSpace userInput.data with
    | none => ⟨c, false, false⟩
    | some fname =>
      match loadRes (String.mk fname) with
      | .error _ => ⟨c, false, false⟩
      | .ok hist => ⟨replaceWith c (loadConversation hist), false, false⟩
  | .chatTurn s =>
    let c1 := addMessage c "user" s ts
    match dispatchRes with
    | .error _ => ⟨c1, false, true⟩
    | .ok resp => ⟨addMessage c1 "assistant" resp ts, false, true⟩

/-- Go `processChatInput`: read the input (with its EOF fallback), then act. -/
def processChatInput (c : Conversation) (scanRes : Option String)
    (dispatchRes : Except String String)
    (loadRes : String → Except String (List Message)) (ts : Nat) : StepOutcome :=
  processInputCore c (getUserInput scanRes) dispatchRes loadRes ts

/-- Go `processChatInputLoop` driven by a finite list of scan results: run
steps until one returns `io.EOF` (the `exit` branch); an exhausted list
stands for `scanner.Scan()` returning `false` from then on, which the next
iteration turns into the exit branch, leaving the state unchanged.  Returns
the final conversation state. -/
def chatLoop (dispatchRes : Except String String)
    (loadRes : String → Except String (List Message)) (ts : Nat) :
    List (Option String) → Conversation → Conversation
  | [], c => c
  | scanRes :: rest, c =>
    let o := processChatInput c scanRes dispatchRes loadRes ts
    if o.sessionEnd then o.conv else chatLoop dispatchRes loadRes ts rest o.conv

/-! ### Concrete inputs used by counterexamples

`repWords n` is a string of `n` whitespace-delimited words, large instances
of which drive the token budget over `maxConversationTokens`. -/

def repChars : Nat → List Char
  | 0 => []
  | n + 1 => 'w' :: ' ' :: repChars n

def repWords (n : Nat) : String := String.mk (repChars n)

theorem countFieldsAux_repChars (n : Nat) : countFieldsAux (repChars n) false = n := by
  have h1 : goIsSpace 'w' = false := rfl
  have h2 : goIsSpace ' ' = true := rfl
  induction n with
  | zero => rfl
  | succ n ih => simp [repChars, countFieldsAux, h1, h2, ih, Nat.add_comm]

theorem estimateTokens_repWords (n : Nat) : estimateTokens (repWords n) = n := by
  simpa [estimateTokens, repWords] using countFieldsAux_repChars n

/-- Evaluating `addMessage` at the seed `"a b"` (2 tokens) and a 4001-word
appended message: the truncation pass fires once, subtracts the appended
message's 4001 tokens, and drops both stored messages, leaving an empty
history with a stale count of 2. -/
theorem addMessage_big_eval :
    addMessage (newConversation "a b" 0) "user" (repWords 4001) 1
      = Conversation.mk [] 2 := by
  have hab : estimateTokens "a b" = 2 := rfl
  norm_num [addMessage, newConversation, truncateHistory, estimateTokens_repWords, hab,
    maxConversationTokens]

theorem countTokens_bigSingleton :
    countTokens [Message.mk "user" (repWords 4001) 0] = 4001 := by
  simp [countTokens, estimateTokens_repWords]

/-! ### General lemmas about the embedded operations -/

/-- The scan loop appends exactly the stream's fragments (in order, with no
separator) to the running buffer, and ends with the last malformed payload
when one exists, the inherited error otherwise. -/
theorem processStreamLoop_spec (lines : List String) :
    ∀ buf err, processStreamLoop lines buf err =
      (buf ++ joinAll (streamFragments lines),
       match streamLastError lines with
       | some e => some e
       | none => err) := by
  induction lines with
  | nil =>
    intro buf err
    simp [processStreamLoop, streamFragments, streamLastError, joinAll]
  | cons line rest ih =>
    intro buf err
    simp only [processStreamLoop, streamFragments, streamLastError]
    cases classifyLine line with
    | skip => simp [ih]
    | sentinel => simp [joinAll]
    | malformed payload =>
      simp only [ih]
      cases streamLastError rest <;> simp
    | fragment content =>
      simp [ih, joinAll, String.append_assoc]

/-- The truncation loop stops only when the count is within budget or at
most one message is left. -/
theorem truncateHistory_budget (hist : List Message) (tc : Int) :
    (truncateHistory hist tc).2 ≤ maxConversationTokens ∨
      (truncateHistory hist tc).1.length ≤ 1 := by
  induction hist, tc using truncateHistory.induct with
  | case1 m0 m1 rest tc h ih =>
    rw [truncateHistory, if_pos h]
    exact ih
  | case2 m0 m1 rest tc h =>
    rw [truncateHistory, if_neg h]
    exact Or.inl (le_of_not_lt h)
  | case3 hist tc h =>
    match hist, h with
    | [], _ => exact Or.inr (by simp [truncateHistory])
    | [m], _ => exact Or.inr (by simp [truncateHistory])
    | m0 :: m1 :: rest, h => exact (h m0 m1 rest rfl).elim

theorem countTokens_append (l1 l2 : List Message) :
    countTokens (l1 ++ l2) = countTokens l1 + countTokens l2 := by
  induction l1 with
  | nil => simp [countTokens]
  | cons m rest ih => simp [countTokens, ih, Nat.add_assoc]

theorem countTokens_reverse (l : List Message) :
    countTokens l.reverse = countTokens l := by
  induction l with
  | nil => rfl
  | cons m rest ih =>
    simp [countTokens, List.reverse_cons, countTokens_append, ih, Nat.add_comm]

theorem truncateConversationAux_eq (maxTok : Nat) :
    ∀ rl total acc, truncateConversationAux maxTok rl total acc
      = (greedyTake maxTok rl total).reverse ++ acc := by
  intro rl
  induction rl with
  | nil => intro total acc; simp [truncateConversationAux, greedyTake]
  | cons m rest ih =>
    intro total acc
    simp only [truncateConversationAux, greedyTake]
    by_cases h : maxTok < total + estimateTokens m.content
    · simp [h]
    · simp [h, ih]

theorem greedyTake_prefixOf (maxTok : Nat) :
    ∀ rl total, greedyTake maxTok rl total <+: rl := by
  intro rl
  induction rl with
  | nil => intro total; simp [greedyTake]
  | cons m rest ih =>
    intro total
    simp only [greedyTake]
    by_cases h : maxTok < total + estimateTokens m.content
    · simp [h]
    · obtain ⟨t, ht⟩ := ih (total + estimateTokens m.content)
      exact ⟨t, by simp [h, ht]⟩

theorem greedyTake_budget (maxTok : Nat) :
    ∀ rl total, total ≤ maxTok →
      total + countTokens (greedyTake maxTok rl total) ≤ maxTok := by
  intro rl
  induction rl with
  | nil => intro total h; simpa [greedyTake, countTokens] using h
  | cons m rest ih =>
    intro total h
    simp only [greedyTake]
    by_cases hov : maxTok < total + estimateTokens m.content
    · simpa [hov, countTokens] using h
    · have h2 := ih (total + estimateTokens m.content) (le_of_not_lt hov)
      simp only [hov, if_false, countTokens]
      omega

theorem greedyTake_stop (maxTok : Nat) :
    ∀ rl total, greedyTake maxTok rl total = rl ∨
      ∃ m rest2, rl = greedyTake maxTok rl total ++ m :: rest2 ∧
        maxTok < total + countTokens (greedyTake maxTok rl total)
          + estimateTokens m.content := by
  intro rl
  induction rl with
  | nil => intro total; exact Or.inl rfl
  | cons m rest ih =>
    intro total
    by_cases hov : maxTok < total + estimateTokens m.content
    · refine Or.inr ⟨m, rest, by simp [greedyTake, hov], ?_⟩
      simp only [greedyTake, hov, if_true, countTokens]
      omega
    · rcases ih (total + estimateTokens m.content) with heq | ⟨m2, r2, hsplit, hbound⟩
      · left; simp [greedyTake, hov, heq]
      · right
        refine ⟨m2, r2, ?_, ?_⟩
        · simp only [greedyTake, hov, if_false, List.cons_append]
          rw [← hsplit]
        · simp only [greedyTake, hov, if_false, countTokens]
          omega

theorem truncateConversation_eq (history : List Message) (maxTok : Nat) :
    truncateConversation history maxTok
      = (greedyTake maxTok history.reverse 0).reverse := by
  simp [truncateConversation, truncateConversationAux_eq]

theorem retryAux_all_or_nothing (lim : Nat → Bool) (tr : Nat → Except String String) :
    ∀ remaining attempt lastErr calls,
      (retryAux lim tr attempt remaining lastErr calls).err = none ∨
      (retryAux lim tr attempt remaining lastErr calls).text = "" := by
  intro remaining
  induction remaining with
  | zero => intro attempt lastErr calls; exact Or.inr rfl
  | succ r ih =>
    intro attempt lastErr calls
    simp only [retryAux]
    by_cases hl : lim attempt
    · simp [hl]
    · simp only [hl, if_false]
      cases htr : tr attempt with
      | ok s => simp
      | error e => exact ih _ _ _

theorem retryAux_step (lim : Nat → Bool) (tr : Nat → Except String String)
    (attempt remaining : Nat) (lastErr : Option String) (calls : Nat) (e : String)
    (hl : lim attempt = false) (ht : tr attempt = Except.error e) :
    retryAux lim tr attempt (remaining + 1) lastErr calls
      = retryAux lim tr (attempt + 1) remaining (some e) (calls + 1) := by
  simp [retryAux, hl, ht]

/-- If the first `k` attempts fail and the context fires during attempt
`k`'s rate-limiter wait, the loop returns the cancellation error with `k`
transport calls made. -/
theorem retryAux_cancelled (lim : Nat → Bool) (tr : Nat → Except String String) :
    ∀ k attempt remaining lastErr calls, k < remaining →
      (∀ i, i < k → lim (attempt + i) = false) →
      (∀ i, i < k → ∃ e, tr (attempt + i) = Except.error e) →
      lim (attempt + k) = true →
      retryAux lim tr attempt remaining lastErr calls
        = ⟨"", some RetryError.ctxCancelled, calls + k⟩ := by
  intro k
  induction k with
  | zero =>
    intro attempt remaining lastErr calls hk _ _ hlim
    match remaining, hk with
    | r + 1, _ =>
      have h0 : lim attempt = true := by simpa using hlim
      simp [retryAux, h0]
  | succ k ih =>
    intro attempt remaining lastErr calls hk hlim htr hlimk
    match remaining, hk with
    | r + 1, hk =>
      have h0 : lim attempt = false := by simpa using hlim 0 (Nat.succ_pos k)
      obtain ⟨e, he⟩ : ∃ e, tr attempt = Except.error e := by
        simpa using htr 0 (Nat.succ_pos k)
      rw [retryAux_step lim tr attempt r lastErr calls e h0 he]
      have hrec := ih (attempt + 1) r (some e) (calls + 1) (by omega)
        (fun i hi => by
          have := hlim (i + 1) (by omega)
          rwa [show attempt + (i + 1) = attempt + 1 + i by omega] at this)
        (fun i hi => by
          have := htr (i + 1) (by omega)
          rwa [show attempt + (i + 1) = attempt + 1 + i by omega] at this)
        (by
          have := hlimk
          rwa [show attempt + (k + 1) = attempt + 1 + k by omega] at this)
      rw [hrec]
      congr 1
      omega

theorem classifyInput_saveChars (t : List Char) :
    classifyInput (String.mk ('/' :: 's' :: 'a' :: 'v' :: 'e' :: t)) = InputAction.saveCmd := rfl

theorem classifyInput_loadChars (t : List Char) :
    classifyInput (String.mk ('/' :: 'l' :: 'o' :: 'a' :: 'd' :: t)) = InputAction.loadCmd := rfl

theorem hasPrefixChars_exists : ∀ p s, hasPrefixChars p s = true → ∃ t, s = p ++ t := by
  intro p
  induction p with
  | nil => intro s _; exact ⟨s, rfl⟩
  | cons a as ih =>
    intro s h
    match s, h with
    | c :: cs, h =>
      rw [hasPrefixChars, Bool.and_eq_true] at h
      obtain ⟨t, ht⟩ := ih cs h.2
      exact ⟨t, by rw [ht, List.cons_append, eq_of_beq h.1]⟩

/-- Any input that `strings.HasPrefix`-matches `/save` takes the save branch
of `processChatInput` (the `exit` and empty-input checks cannot fire first). -/
theorem classifyInput_save (u : String)
    (h : goHasPrefix u "/save" = true) :
    classifyInput u = InputAction.saveCmd := by
  obtain ⟨t, ht⟩ := hasPrefixChars_exists "/save".data u.data h
  cases u with
  | mk ud =>
    have ht2 : ud = '/' :: 's' :: 'a' :: 'v' :: 'e' :: t := ht
    subst ht2
    exact classifyInput_saveChars t

/-- Any input that `strings.HasPrefix`-matches `/load` takes the load branch
(the earlier empty, `exit` and `/save` checks cannot fire first). -/
theorem classifyInput_load (u : String)
    (h : goHasPrefix u "/load" = true) :
    classifyInput u = InputAction.loadCmd := by
  obtain ⟨t, ht⟩ := hasPrefixChars_exists "/load".data u.data h
  cases u with
  | mk ud =>
    have ht2 : ud = '/' :: 'l' :: 'o' :: 'a' :: 'd' :: t := ht
    subst ht2
    exact classifyInput_loadChars t

/-! ### The claims -/

/-- Claim C1 (refuted; exhibits the code bug): after seeding the
conversation with the system message `"a b"` (2 tokens) and appending one
4001-word user message, the truncation pass removes both stored messages
but subtracts only the appended message's estimate, so the stored
`tokenCount` is 2 while the retained history is empty (sum of estimates 0):
`tokenCount` does not equal the sum of the retained messages' estimates. -/
theorem C1_tokenCount_drifts_at_truncation :
    (addMessage (newConversation "a b" 0) "user" (repWords 4001) 1).tokenCount = 2 ∧
    (addMessage (newConversation "a b" 0) "user" (repWords 4001) 1).History = [] ∧
    (addMessage (newConversation "a b" 0) "user" (repWords 4001) 1).tokenCount
      ≠ (countTokens (addMessage (newConversation "a b" 0) "user"
          (repWords 4001) 1).History : Int) := by
  have h := addMessage_big_eval
  exact ⟨by rw [h], by rw [h], by rw [h]; simp [countTokens]⟩

/-- Claim C2 (refuted; exhibits the code bug): after seeding with the
system message `"a b"` and appending a single 4001-word user message, the
history is empty — the truncation slice `History[2:]` evicted the seeded
system message at index 0, so the first stored message is not preserved. -/
theorem C2_system_message_evicted :
    (addMessage (newConversation "a b" 0) "user" (repWords 4001) 1).History = [] := by
  rw [addMessage_big_eval]

/-- Claim C3, counterexample: a stream with one malformed data line followed
by the `data: [DONE]` sentinel yields an error, not success — the
`lastError` check after the scan loop fires even when the loop was ended by
the sentinel. -/
theorem C3_counterexample_malformed_then_sentinel :
    processStreamResponse ["data: \x7bbad", "data: [DONE]"]
      = Except.error "error processing stream: \x7bbad" := rfl

/-- Claim C3 as amended: reaching the sentinel does not supersede an earlier
malformed record.  `processStreamResponse` returns success (with the
assembled, trimmed fragments) exactly when no data line before the sentinel
was malformed, and returns the wrapped last malformed-record error
otherwise, sentinel or not. -/
theorem C3_amended_malformed_line_is_fatal (lines : List String) :
    (streamLastError lines = none →
      processStreamResponse lines
        = Except.ok (trimSpace (joinAll (streamFragments lines)))) ∧
    (∀ e, streamLastError lines = some e →
      processStreamResponse lines
        = Except.error ("error processing stream: " ++ e)) := by
  constructor
  · intro h
    simp [processStreamResponse, processStreamLoop_spec, h, String.empty_append]
  · intro e h
    simp [processStreamResponse, processStreamLoop_spec, h]

/-- Witness for the amended claim C3 at the concrete two-line stream. -/
theorem C3_amended_witness :
    processStreamResponse ["data: \x7bbad", "data: [DONE]"]
      = Except.error ("error processing stream: " ++ "\x7bbad") :=
  (C3_amended_malformed_line_is_fatal ["data: \x7bbad", "data: [DONE]"]).2 "\x7bbad" rfl

/-- Claim C4, counterexample: loading a conversation whose recomputed token
count is 4001 and installing it with `replaceWith` leaves `tokenCount`
above `maxConversationTokens` — the load path never truncates. -/
theorem C4_counterexample_load_exceeds_budget :
    maxConversationTokens <
      (replaceWith (newConversation "a b" 0)
          (loadConversation [Message.mk "user" (repWords 4001) 0])).tokenCount := by
  simp [replaceWith, loadConversation, countTokens_bigSingleton, maxConversationTokens]

/-- Claim C4 as amended: after an `addMessage` with its synchronous
truncation pass, `tokenCount` is within `maxConversationTokens` unless at
most one message remains; a whole-state replacement via load installs the
recomputed token count of the loaded history unchanged (it is not bounded
by the budget). -/
theorem C4_amended_budget_after_operations (c : Conversation) (role content : String)
    (ts : Nat) (hist : List Message) :
    ((addMessage c role content ts).tokenCount ≤ maxConversationTokens ∨
      (addMessage c role content ts).History.length ≤ 1) ∧
    (replaceWith c (loadConversation hist)).tokenCount = (countTokens hist : Int) := by
  constructor
  · simpa [addMessage] using
      truncateHistory_budget (c.History ++ [⟨role, content, ts⟩])
        (c.tokenCount + (estimateTokens content : Int))
  · rfl

/-- Claim C5: when the context never fires and every attempt's request
fails, `getAIResponseWithRetry` performs exactly `maxRetries` transport
calls and returns the empty string together with the composite error that
carries the attempt count and wraps the last underlying error; moreover,
for every limiter and transport, the dispatcher returns either no error or
the empty string (never partial text alongside a failure). -/
theorem C5_exhaustion_returns_composite_error (lim : Nat → Bool)
    (tr : Nat → Except String String) (errFn : Nat → String)
    (hlim : ∀ i, i < maxRetries → lim i = false)
    (htr : ∀ i, i < maxRetries → tr i = Except.error (errFn i)) :
    getAIResponseWithRetry lim tr
      = ⟨"", some (RetryError.exhausted maxRetries (some (errFn (maxRetries - 1)))),
          maxRetries⟩ ∧
    ∀ lim2 tr2, (getAIResponseWithRetry lim2 tr2).err = none ∨
      (getAIResponseWithRetry lim2 tr2).text = "" := by
  have l0 := hlim 0 (by norm_num [maxRetries])
  have l1 := hlim 1 (by norm_num [maxRetries])
  have l2 := hlim 2 (by norm_num [maxRetries])
  have t0 := htr 0 (by norm_num [maxRetries])
  have t1 := htr 1 (by norm_num [maxRetries])
  have t2 := htr 2 (by norm_num [maxRetries])
  constructor
  · rw [getAIResponseWithRetry, maxRetries]
    rw [show (3 : Nat) = 2 + 1 from rfl, retryAux_step lim tr 0 2 none 0 (errFn 0) l0 t0]
    rw [show (2 : Nat) = 1 + 1 from rfl,
      retryAux_step lim tr 1 1 (some (errFn 0)) 1 (errFn 1) l1 t1]
    rw [show (1 : Nat) = 0 + 1 from rfl,
      retryAux_step lim tr 2 0 (some (errFn 1)) 2 (errFn 2) l2 t2]
    rfl
  · exact fun lim2 tr2 => retryAux_all_or_nothing lim2 tr2 maxRetries 0 none 0

/-- Witness for claim C5 with an always-failing transport. -/
theorem C5_witness :
    getAIResponseWithRetry (fun _ => false) (fun _ => Except.error "boom")
      = ⟨"", some (RetryError.exhausted maxRetries (some "boom")), maxRetries⟩ :=
  (C5_exhaustion_returns_composite_error (fun _ => false) (fun _ => Except.error "boom")
    (fun _ => "boom") (fun _ _ => rfl) (fun _ _ => rfl)).1

/-- Claim C6: on the concrete three-line stream the decoder returns
`"Hi there"` with no error; in general the scan loop appends exactly the
arrival-ordered fragments with no separator, and on error-free streams the
result is the trimmed concatenation of those fragments. -/
theorem C6_fragments_concatenated_and_trimmed :
    processStreamResponse
        ["data: \x7b\"choices\":[\x7b\"delta\":\x7b\"content\":\"Hi\"\x7d\x7d]\x7d",
         "data: \x7b\"choices\":[\x7b\"delta\":\x7b\"content\":\" there\"\x7d\x7d]\x7d",
         "data: [DONE]"] = Except.ok "Hi there" ∧
    (∀ lines buf err, (processStreamLoop lines buf err).1
        = buf ++ joinAll (streamFragments lines)) ∧
    (∀ lines, streamLastError lines = none →
        processStreamResponse lines
          = Except.ok (trimSpace (joinAll (streamFragments lines)))) := by
  refine ⟨rfl, ?_, ?_⟩
  · intro lines buf err
    rw [processStreamLoop_spec]
  · intro lines h
    simp [processStreamResponse, processStreamLoop_spec, h, String.empty_append]

/-- Witness for claim C6's error-free-stream conjunct at a concrete input. -/
theorem C6_witness :
    processStreamResponse
        ["data: \x7b\"choices\":[\x7b\"delta\":\x7b\"content\":\"Hi\"\x7d\x7d]\x7d",
         "data: [DONE]"]
      = Except.ok (trimSpace (joinAll (streamFragments
          ["data: \x7b\"choices\":[\x7b\"delta\":\x7b\"content\":\"Hi\"\x7d\x7d]\x7d",
           "data: [DONE]"]))) :=
  C6_fragments_concatenated_and_trimmed.2.2
    ["data: \x7b\"choices\":[\x7b\"delta\":\x7b\"content\":\"Hi\"\x7d\x7d]\x7d",
     "data: [DONE]"] rfl

/-- Claim C7: for every history and outbound ceiling,
`truncateConversation` returns a contiguous suffix of the history (order
preserved) whose total token estimate never exceeds the ceiling, and it is
the greedy backward walk: either the whole history is included, or the
message immediately preceding the returned suffix would push the total over
the ceiling. -/
theorem C7_outbound_truncation_greedy_suffix (history : List Message) (maxTok : Nat) :
    truncateConversation history maxTok <:+ history ∧
    countTokens (truncateConversation history maxTok) ≤ maxTok ∧
    (truncateConversation history maxTok = history ∨
      ∃ pre m, history = pre ++ m :: truncateConversation history maxTok ∧
        maxTok < estimateTokens m.content
          + countTokens (truncateConversation history maxTok)) := by
  rw [truncateConversation_eq]
  refine ⟨?_, ?_, ?_⟩
  · have hp : greedyTake maxTok history.reverse 0 <+: history.reverse :=
      greedyTake_prefixOf maxTok history.reverse 0
    have := List.reverse_suffix.mpr hp
    rwa [List.reverse_reverse] at this
  · rw [countTokens_reverse]
    simpa using greedyTake_budget maxTok history.reverse 0 (Nat.zero_le _)
  · rcases greedyTake_stop maxTok history.reverse 0 with heq | ⟨m, r2, hsplit, hbound⟩
    · left
      rw [heq, List.reverse_reverse]
    · right
      refine ⟨r2.reverse, m, ?_, ?_⟩
      · conv_lhs => rw [← List.reverse_reverse history, hsplit]
        simp [List.reverse_append]
      · rw [countTokens_reverse]
        omega

/-- Claim C8: if the shared context has fired during attempt `k`'s
rate-limiter wait (all earlier attempts having failed), the dispatcher
returns the cancellation error with empty text after exactly `k` transport
calls — the HTTP request of attempt `k` is never issued and the remaining
attempts are not waited out. -/
theorem C8_cancellation_preempts_attempt (lim : Nat → Bool)
    (tr : Nat → Except String String) (k : Nat) (hk : k < maxRetries)
    (hlim : ∀ i, i < k → lim i = false)
    (htr : ∀ i, i < k → ∃ e, tr i = Except.error e)
    (hfire : lim k = true) :
    getAIResponseWithRetry lim tr = ⟨"", some RetryError.ctxCancelled, k⟩ := by
  have h := retryAux_cancelled lim tr k 0 maxRetries none 0 hk
    (fun i hi => by simpa using hlim i hi)
    (fun i hi => by simpa using htr i hi)
    (by simpa using hfire)
  simpa [getAIResponseWithRetry] using h

/-- Witness for claim C8: cancellation during the very first wait returns
the cancellation error with zero transport calls. -/
theorem C8_witness :
    getAIResponseWithRetry (fun _ => true) (fun _ => Except.ok "hi")
      = ⟨"", some RetryError.ctxCancelled, 0⟩ :=
  C8_cancellation_preempts_attempt (fun _ => true) (fun _ => Except.ok "hi") 0
    (by norm_num [maxRetries])
    (fun i hi => absurd hi (Nat.not_lt_zero i))
    (fun i hi => absurd hi (Nat.not_lt_zero i)) rfl

/-- Claim C9: command dispatch matches by prefix.  Every input beginning
with `/save` takes the save branch and leaves the conversation untouched
without dispatching a chat turn; every input beginning with `/load` takes
the load branch, dispatches nothing, and either leaves the state unchanged
or replaces it wholesale with a loaded conversation — never appending. -/
theorem C9_slash_commands_prefix_dispatch (u : String) (c : Conversation)
    (dr : Except String String) (lr : String → Except String (List Message)) (ts : Nat) :
    (goHasPrefix u "/save" = true →
      classifyInput u = InputAction.saveCmd ∧
      processInputCore c u dr lr ts = ⟨c, false, false⟩) ∧
    (goHasPrefix u "/load" = true →
      classifyInput u = InputAction.loadCmd ∧
      (processInputCore c u dr lr ts).dispatched = false ∧
      (processInputCore c u dr lr ts).sessionEnd = false ∧
      ((processInputCore c u dr lr ts).conv = c ∨
        ∃ hist, (processInputCore c u dr lr ts).conv = loadConversation hist)) := by
  constructor
  · intro h
    have hc := classifyInput_save u h
    exact ⟨hc, by simp [processInputCore, hc]⟩
  · intro h
    have hc := classifyInput_load u h
    refine ⟨hc, ?_⟩
    simp only [processInputCore, hc]
    rcases hsp : splitFirstSpace u.data with _ | fname
    · simp
    · rcases hlr : lr (String.mk fname) with e | hist
      · simp [hlr]
      · exact ⟨by simp [hlr], by simp [hlr],
          Or.inr ⟨hist, by simp [hlr, replaceWith, loadConversation]⟩⟩

/-- Witness for claim C9 at the concrete inputs `/savefoo` and
`/load mychat.json`. -/
theorem C9_witness :
    classifyInput "/savefoo" = InputAction.saveCmd ∧
    classifyInput "/load mychat.json" = InputAction.loadCmd :=
  ⟨((C9_slash_commands_prefix_dispatch "/savefoo" (newConversation "" 0)
      (Except.ok "") (fun _ => Except.error "") 0).1 rfl).1,
   ((C9_slash_commands_prefix_dispatch "/load mychat.json" (newConversation "" 0)
      (Except.ok "") (fun _ => Except.error "") 0).2 rfl).1⟩

/-- Claim C10: a failed or exhausted standard-input read makes
`getUserInput` return the literal exit command, the session takes the
goodbye/exit branch exactly as if the user had typed `exit`, the
conversation is left untouched with nothing dispatched, and the chat loop
stops without processing any further input. -/
theorem C10_eof_terminates_like_exit :
    getUserInput none = exitCommand ∧
    classifyInput exitCommand = InputAction.exitSession ∧
    (∀ c dr lr ts, processChatInput c none dr lr ts = ⟨c, true, false⟩) ∧
    (∀ c dr lr ts, processChatInput c none dr lr ts
        = processChatInput c (some exitCommand) dr lr ts) ∧
    (∀ dr lr ts rest c, chatLoop dr lr ts (none :: rest) c = c) :=
  ⟨rfl, rfl, fun _ _ _ _ => rfl, fun _ _ _ _ => rfl, fun _ _ _ _ _ => rfl⟩

end ProjectAIli
